import Mathlib

/-!
Verification development for the awful_text_news pipeline.

Shallow embedding of the program's core logic:
* data model (`src/models.rs`): `NewsArticle`, `AwfulNewsArticle`, `FrontPage`
  and the entity sub-records;
* retry/backoff decorator (`src/api.rs`, `RetryAsk::ask`);
* per-article enrichment step with single-shot truncation re-ask and
  per-sub-collection deduplication (`src/main.rs`, processing closure);
* bounded-concurrency fan-out collation (`src/main.rs`,
  `buffer_unordered` loop), modelled by an explicit completion order;
* index-merge functions (`src/outputs/indexes.rs`): `update_date_toc_file`,
  `update_summary_md`, `update_daily_news_index`;
* string utilities (`src/utils.rs`): `truncate_for_log`, `slugify_title`,
  `upcase`.

I/O is factored out: each merge function takes the current document content
(`none` when the file does not exist) and returns the text the program writes.
The remote call is an oracle `Nat → Except ε ρ` giving the outcome of each
successive call; randomness (jitter) is a bounded parameter; the
`buffer_unordered` completion schedule is an explicit permutation.
-/

/-! ## Data model (src/models.rs) -/

/-- A raw scraped article (`NewsArticle` in `src/models.rs`). -/
structure NewsArticle where
  source : String
  content : String
deriving DecidableEq

/-- `NamedEntity` in `src/models.rs`. -/
structure NamedEntity where
  name : String
  whatIsThisEntity : String
  whyIsThisEntityRelevantToTheArticle : String
deriving DecidableEq

/-- `ImportantDate` in `src/models.rs`. -/
structure ImportantDate where
  dateMentionedInArticle : String
  descriptionOfWhyDateIsRelevant : String
deriving DecidableEq

/-- `ImportantTimeframe` in `src/models.rs`. -/
structure ImportantTimeframe where
  approximateTimeFrameStart : String
  approximateTimeFrameEnd : String
  descriptionOfWhyTimeFrameIsRelevant : String
deriving DecidableEq

/-- `AwfulNewsArticle` in `src/models.rs`: the LLM-processed article. -/
structure AwfulNewsArticle where
  source : Option String
  dateOfPublication : String
  timeOfPublication : String
  title : String
  category : String
  summaryOfNewsArticle : String
  keyTakeAways : List String
  namedEntities : List NamedEntity
  importantDates : List ImportantDate
  importantTimeframes : List ImportantTimeframe
  tags : List String
  content : Option String
deriving DecidableEq

/-- `FrontPage` in `src/models.rs`: one edition's worth of articles. -/
structure FrontPage where
  local_date : String
  time_of_day : String
  local_time : String
  articles : List AwfulNewsArticle
deriving DecidableEq

/-! ## String utilities (src/utils.rs) and Rust string primitives

Rust's `str::lines`, `str::trim`, `str::starts_with` and `str::contains`
are modelled over character lists by structural recursion so that all
definitions compute by kernel reduction. Rust `trim` strips Unicode
whitespace and our model strips `Char.isWhitespace`; these agree on the
ASCII documents the program manipulates. -/

/-- Split a character list at every occurrence of `sep` (like Rust
`str::split`): `splitOnChar '\n' "a\nb" = ["a", "b"]` with a trailing empty
segment for a trailing separator. -/
def splitOnChar (sep : Char) : List Char → List (List Char)
  | [] => [[]]
  | c :: cs =>
    if c = sep then [] :: splitOnChar sep cs
    else
      match splitOnChar sep cs with
      | [] => [[c]]
      | h :: t => (c :: h) :: t

/-- Drop one trailing carriage return, as Rust `str::lines` does per line. -/
def stripCRChars (l : List Char) : List Char :=
  match l.getLast? with
  | some c => if c = '\r' then l.dropLast else l
  | none => l

/-- Rust `str::lines`: split on `'\n'`, no trailing empty line for a trailing
newline, each line stripped of one trailing `'\r'`. -/
def rustLines (s : String) : List String :=
  if s.toList.isEmpty then []
  else
    let parts := splitOnChar '\n' s.toList
    let parts := if parts.getLast? = some [] then parts.dropLast else parts
    parts.map (fun cs => String.mk (stripCRChars cs))

/-- Rust `Vec::join("\n")` / the `lines.join("\n")` rewrite step of the index
merge functions. -/
def joinLines : List String → String
  | [] => ""
  | [l] => l
  | l :: ls => l ++ "\n" ++ joinLines ls

/-- Rust `str::trim` (whitespace from both ends). -/
def rustTrim (s : String) : String :=
  String.mk (((s.toList.dropWhile Char.isWhitespace).reverse.dropWhile
    Char.isWhitespace).reverse)

/-- `p` is a prefix of `l` (Rust `str::starts_with`). -/
def listPre (p l : List Char) : Bool :=
  match p, l with
  | [], _ => true
  | _ :: _, [] => false
  | a :: ps, b :: ls => a == b && listPre ps ls

/-- Rust `str::starts_with`. -/
def strStartsWith (s p : String) : Bool := listPre p.toList s.toList

/-- `needle` occurs contiguously in `hay`. -/
def listContains (needle : List Char) : List Char → Bool
  | [] => needle.isEmpty
  | c :: cs => listPre needle (c :: cs) || listContains needle cs

/-- Rust `str::contains` with a string pattern. -/
def containsSub (hay needle : String) : Bool := listContains needle.toList hay.toList

/-- Rust `Vec::insert(i, x)` on a line vector (used with `i ≤ length`). -/
def insertAt (l : List String) (i : Nat) (x : String) : List String :=
  l.take i ++ x :: l.drop i

/-- `upcase` in `src/utils.rs`: capitalize the first character. -/
def upcase (s : String) : String :=
  match s.toList with
  | [] => ""
  | c :: cs => String.mk (c.toUpper :: cs)

/-- `slugify_title` in `src/utils.rs`: lowercase, strip every character that
is not alphanumeric, a space or a hyphen, then replace spaces with hyphens. -/
def slugify_title (title : String) : String :=
  String.mk (((title.toList.map Char.toLower).filter
    (fun c => c.isAlphanum || c = ' ' || c = '-')).map
    (fun c => if c = ' ' then '-' else c))

/-- UTF-8 byte length of a character list (Rust `str::len`). -/
def utf8Len (l : List Char) : Nat := (l.map Char.utf8Size).sum

/-- The first `n` bytes of a character list as whole characters: `some` when
byte index `n` is a character boundary (Rust slicing `&s[..n]` succeeds),
`none` when it is not (Rust panics). -/
def takeBytes : Nat → List Char → Option (List Char)
  | 0, _ => some []
  | _ + 1, [] => none
  | n + 1, c :: cs =>
    if c.utf8Size ≤ n + 1 then (takeBytes (n + 1 - c.utf8Size) cs).map (fun r => c :: r)
    else none

/-- Byte index `n` is a character boundary of the list (guarded use:
`n` at most the byte length). -/
def isCharBoundary : Nat → List Char → Bool
  | 0, _ => true
  | _ + 1, [] => false
  | n + 1, c :: cs =>
    if c.utf8Size ≤ n + 1 then isCharBoundary (n + 1 - c.utf8Size) cs else false

/-- `truncate_for_log` in `src/utils.rs`. The source slices `&s[..max]`,
which panics when byte index `max` is not a character boundary; the panic is
modelled as `none`. -/
def truncate_for_log (s : String) (max : Nat) : Option String :=
  if utf8Len s.toList ≤ max then some s
  else
    (takeBytes max s.toList).map (fun pre =>
      String.mk pre ++ "…(+" ++ toString (utf8Len s.toList - max) ++ " bytes)")

/-! ## Retry with exponential backoff (src/api.rs, `RetryAsk::ask`)

The wrapped capability is an oracle from the call number (0-based) to that
call's outcome. The returned pair carries the result and the total number
of calls made, instrumenting the attempt count of the source loop. -/

/-- The loop body of `RetryAsk::ask`: `attempt` is the source's attempt
counter before the current call. On failure the counter is incremented and,
once it exceeds `maxRetries`, the most recent error is returned. -/
def retryAskFrom {E R : Type} (inner : Nat → Except E R) (maxRetries attempt : Nat) :
    Except E R × Nat :=
  match inner attempt with
  | Except.ok r => (Except.ok r, 1)
  | Except.error e =>
    if h : attempt + 1 > maxRetries then (Except.error e, 1)
    else
      let p := retryAskFrom inner maxRetries (attempt + 1)
      (p.1, p.2 + 1)
termination_by maxRetries + 1 - attempt
decreasing_by omega

/-- `RetryAsk::ask`: the loop started with attempt counter 0. -/
def retryAsk {E R : Type} (inner : Nat → Except E R) (maxRetries : Nat) :
    Except E R × Nat :=
  retryAskFrom inner maxRetries 0

/-- `ask_with_backoff` in `src/api.rs`: `RetryAsk::new(client, 5, 1s)`. -/
def ask_with_backoff {E R : Type} (inner : Nat → Except E R) : Except E R × Nat :=
  retryAsk inner 5

/-- The pre-jitter backoff delay in milliseconds for a failed attempt
(`src/api.rs` lines 145-149): `base_delay.saturating_mul(1 << (attempt - 1))`
capped at `max_delay`. Modelled over `Nat`: the `usize` shift equals
`2 ^ (attempt - 1)` for every attempt the loop can reach (at most
`maxRetries + 1`), and saturating multiplication never saturates below the
`maxMs` cap, so the cap makes the `Nat` model exact. -/
def backoffDelayMs (baseMs maxMs attempt : Nat) : Nat :=
  if baseMs * 2 ^ (attempt - 1) > maxMs then maxMs else baseMs * 2 ^ (attempt - 1)

/-- The jitter values `rng().random_range(0..=250)` can produce
(`src/api.rs` line 150), in milliseconds. -/
def jitterRangeMs : List Nat := List.range 251

/-! ## Per-article enrichment (src/main.rs processing closure) -/

/-- Outcome of `serde_json::from_str::<AwfulNewsArticle>`: success, a
truncation error (`classify() == Category::Eof`, the case `looks_truncated`
in `src/utils.rs` accepts), or any other parse error. -/
inductive ParseOutcome (α : Type) where
  | ok (a : α)
  | truncated
  | malformed
deriving DecidableEq

/-- The provenance stamp of `src/main.rs` lines 246-247: copy the raw
article's source URL and content onto the parsed article. -/
def stampProvenance (art : AwfulNewsArticle) (raw : NewsArticle) : AwfulNewsArticle :=
  { art with source := some raw.source, content := some raw.content }

/-- `itertools::unique_by` over a key already seen set: keep an element iff
its key has not been produced before (first occurrence wins, order kept). -/
def uniqueByAux {α κ : Type} [DecidableEq κ] (key : α → κ) (seen : List κ) :
    List α → List α
  | [] => []
  | x :: xs =>
    if key x ∈ seen then uniqueByAux key seen xs
    else x :: uniqueByAux key (key x :: seen) xs

/-- `itertools::unique_by` (and `unique` for `key = id`). -/
def uniqueBy {α κ : Type} [DecidableEq κ] (key : α → κ) (l : List α) : List α :=
  uniqueByAux key [] l

/-- The dedupe block of `src/main.rs` lines 249-269: named entities by
`name`, important dates by `descriptionOfWhyDateIsRelevant`, important
timeframes by `descriptionOfWhyTimeFrameIsRelevant`, key takeaways by
exact value. -/
def dedupeArticle (a : AwfulNewsArticle) : AwfulNewsArticle :=
  { a with
    namedEntities := uniqueBy (fun e => e.name) a.namedEntities
    importantDates := uniqueBy (fun e => e.descriptionOfWhyDateIsRelevant) a.importantDates
    importantTimeframes :=
      uniqueBy (fun e => e.descriptionOfWhyTimeFrameIsRelevant) a.importantTimeframes
    keyTakeAways := uniqueBy (fun s => s) a.keyTakeAways }

/-- The per-article closure of `src/main.rs` lines 220-290. `call n` is the
outcome of the (n+1)-th `ask_with_backoff` invocation for this article and
`parse` the classification of `serde_json::from_str` on a response. Returns
the slot value and the number of `ask_with_backoff` invocations made:
one call, and exactly one re-ask when (and only when) the first response
parses as truncated; a failed re-ask keeps the truncation error, so the
article is dropped. -/
def process_article (raw : NewsArticle) (call : Nat → Except String String)
    (parse : String → ParseOutcome AwfulNewsArticle) :
    Option AwfulNewsArticle × Nat :=
  match call 0 with
  | Except.error _ => (none, 1)
  | Except.ok response =>
    match parse response with
    | ParseOutcome.ok art => (some (dedupeArticle (stampProvenance art raw)), 1)
    | ParseOutcome.malformed => (none, 1)
    | ParseOutcome.truncated =>
      match call 1 with
      | Except.error _ => (none, 2)
      | Except.ok r2 =>
        match parse r2 with
        | ParseOutcome.ok art => (some (dedupeArticle (stampProvenance art raw)), 2)
        | ParseOutcome.truncated => (none, 2)
        | ParseOutcome.malformed => (none, 2)

/-! ## Fan-out scheduler (src/main.rs, `buffer_unordered` loop)

`stream::iter(...).map(closure).buffer_unordered(k).collect()` yields each
task's output exactly once, in completion order. The completion schedule is
an explicit list `order`: `order[t]` is the input index of the task that
completes t-th. A schedule is achievable under concurrency ceiling `k` iff
tasks start in input order with at most `k` in flight, i.e. the task
completing t-th has index below `t + k`. -/

/-- The concurrency ceiling `PARALLEL_BATCH_SIZE` of `src/main.rs`. -/
def PARALLEL_BATCH_SIZE : Nat := 12

/-- The collected result vector: slot `t` holds the result of the task that
completed t-th (no re-collation by input index happens in the source). -/
def processBatch {α β : Type} (inputs : List α) (enrich : α → Option β)
    (order : List Nat) : List (Option β) :=
  order.map (fun i => (inputs[i]?).bind enrich)

/-- `order` is achievable under concurrency ceiling `k`: before the t-th
completion exactly `t` tasks have finished, so at most `t + k` tasks have
started, and tasks start in input order. -/
@[reducible] def admissibleOrder (k : Nat) (order : List Nat) : Prop :=
  ∀ t, t < order.length → (order[t]?).getD 0 < t + k

/-! ## Index merge functions (src/outputs/indexes.rs)

Each function takes the current document content (`none` = the file does
not exist) and returns the full text the run leaves in the file. -/

/-- Extract everything after `"://"` (models `url::Url::parse` + `host_str`
for the http(s) URLs the scrapers produce; the host then runs to the next
`'/'`). -/
def afterScheme : List Char → Option (List Char)
  | [] => none
  | ':' :: '/' :: '/' :: rest => some rest
  | _ :: rest => afterScheme rest

/-- `AwfulNewsArticle::source_tag` in `src/models.rs`: the domain label
before the TLD, e.g. `https://lite.cnn.com/x` ↦ `cnn`. -/
def source_tag (a : AwfulNewsArticle) : Option String :=
  a.source.bind fun url =>
    (afterScheme url.toList).bind fun rest =>
      let host := rest.takeWhile (fun c => c ≠ '/')
      let parts := splitOnChar '.' host
      if h : 2 ≤ parts.length then
        some (String.mk (parts.get ⟨parts.length - 2, by omega⟩))
      else none

/-- The per-category listing of `update_date_toc_file` (lines 68-103):
categories in sorted order (Rust `BTreeMap` iteration), each category line
followed by one line per article of that category in input order. -/
def dateTocCategorySection (articles : List AwfulNewsArticle) (filename : String) :
    String :=
  let cats := List.insertionSort (fun a b => a ≤ b) ((articles.map (fun a => a.category)).dedup)
  String.join (cats.map (fun cat =>
    "\t- [**" ++ cat ++ "**](" ++ filename ++ "#" ++ slugify_title cat ++ ")\n"
      ++ String.join (((articles.filter (fun a => a.category == cat)).map (fun a =>
        let tagStr := match source_tag a with
          | some t => " <small>`" ++ t ++ "`</small>"
          | none => ""
        let slug := match source_tag a with
          | some t => slugify_title a.title ++ "---" ++ t
          | none => slugify_title a.title
        "\t\t- " ++ tagStr ++ " - [" ++ a.title ++ "](" ++ filename ++ "#" ++ slug ++ ")\n")))))

/-- `update_date_toc_file` in `src/outputs/indexes.rs` (lines 43-113): the
file is opened in append mode, a header is prepended only when the file did
not exist, and the edition link plus the category listing are appended
unconditionally — no existence check of any kind. -/
def update_date_toc_file (existing : Option String) (fp : FrontPage)
    (markdownFilename : String) : String :=
  let headerPart := match existing with
    | none => "# Editions published on " ++ fp.local_date ++ "\n\n"
    | some _ => ""
  let tocMd := headerPart
    ++ "- [" ++ upcase fp.time_of_day ++ "](./" ++ markdownFilename ++ ")\n"
    ++ dateTocCategorySection fp.articles markdownFilename
  (match existing with | none => "" | some c => c) ++ tocMd

/-- The seed content `update_summary_md` writes for a missing SUMMARY.md. -/
def summaryDefaultContent : String :=
  "# Summary\n\n[Home](./home.md)\n- [PGP](./pgp.md)\n- [Contact](./contact.md)\n- [Daily News](./daily_news.md)\n"

/-- The date heading `update_summary_md` looks for and inserts. -/
def summary_date_heading (fp : FrontPage) : String :=
  "    - [" ++ fp.local_date ++ "](./" ++ fp.local_date ++ ".md)"

/-- The edition entry `update_summary_md` looks for and inserts. -/
def summary_edition_heading (fp : FrontPage) (markdownFilename : String) : String :=
  "        - [" ++ upcase fp.time_of_day ++ "](./" ++ markdownFilename ++ ")"

/-- The inner while loop of `update_summary_md` / `update_daily_news_index`:
scan the contiguous block of lines starting at index `j` (given as the
suffix `rest` of the line vector) while lines start with `pre`; report
whether a line trim-equal to `eh` was found, and the index scanning stopped
at (the insertion point when not found). -/
def scanBlock (pre eh : String) : List String → Nat → Bool × Nat
  | [], j => (false, j)
  | l :: rest, j =>
    if strStartsWith l pre then
      if rustTrim l == rustTrim eh then (true, j)
      else scanBlock pre eh rest (j + 1)
    else (false, j)

/-- The line-vector edit of `update_summary_md` (lines 159-189): find the
first line trim-equal to the date heading `dh`; if found, scan its indented
block for the edition heading `eh` and insert `eh` at the end of the block
unless already present; otherwise insert `dh` and `eh` right after the first
line containing `"- [Daily News]"`, or change nothing if there is none. -/
def update_summary_lines (lines : List String) (dh eh : String) : List String :=
  match lines.findIdx? (fun l => rustTrim l == rustTrim dh) with
  | some i =>
    let p := scanBlock "        - " eh (lines.drop (i + 1)) (i + 1)
    if p.1 then lines else insertAt lines p.2 eh
  | none =>
    match lines.findIdx? (fun l => containsSub l "- [Daily News]") with
    | some pos => insertAt (insertAt lines (pos + 1) dh) (pos + 2) eh
    | none => lines

/-- `update_summary_md` in `src/outputs/indexes.rs` (lines 135-194). -/
def update_summary_md (existing : Option String) (fp : FrontPage)
    (markdownFilename : String) : String :=
  let content := match existing with
    | some c => c
    | none => summaryDefaultContent
  joinLines (update_summary_lines (rustLines content)
    (summary_date_heading fp) (summary_edition_heading fp markdownFilename))

/-- The date heading `update_daily_news_index` looks for and inserts. -/
def daily_date_heading (fp : FrontPage) : String :=
  "- [**" ++ fp.local_date ++ "**](./" ++ fp.local_date ++ ".md)"

/-- The edition entry `update_daily_news_index` looks for and inserts. -/
def daily_edition_entry (fp : FrontPage) (markdownFilename : String) : String :=
  "    - [" ++ upcase fp.time_of_day ++ "](./" ++ markdownFilename ++ ")"

/-- The line-vector edit of `update_daily_news_index` (lines 242-279): like
`update_summary_lines` but with the daily grammar, and a fallback that
inserts a blank line, the date heading and the entry after the
`"# Awful News Index"` header, or pushes heading and entry at the end when
even the header is missing. -/
def update_daily_lines (lines : List String) (dh eh : String) : List String :=
  match lines.findIdx? (fun l => rustTrim l == rustTrim dh) with
  | some i =>
    let p := scanBlock "    - " eh (lines.drop (i + 1)) (i + 1)
    if p.1 then lines else insertAt lines p.2 eh
  | none =>
    match lines.findIdx? (fun l => strStartsWith l "# Awful News Index") with
    | some pos =>
      insertAt (insertAt (insertAt lines (pos + 1) "") (pos + 2) dh) (pos + 3) eh
    | none => lines ++ [dh, eh]

/-- `update_daily_news_index` in `src/outputs/indexes.rs` (lines 218-284). -/
def update_daily_news_index (existing : Option String) (fp : FrontPage)
    (markdownFilename : String) : String :=
  let content := match existing with
    | some c => c
    | none => "# Awful News Index\n\n"
  joinLines (update_daily_lines (rustLines content)
    (daily_date_heading fp) (daily_edition_entry fp markdownFilename))

/-! ## Concrete fixtures used by closed theorems and witnesses -/

/-- A morning edition with no articles, date 2025-05-06. -/
def fpMorning : FrontPage :=
  { local_date := "2025-05-06", time_of_day := "morning",
    local_time := "06:00:00", articles := [] }

/-- The evening edition of the same date. -/
def fpEvening : FrontPage :=
  { local_date := "2025-05-06", time_of_day := "evening",
    local_time := "20:00:00", articles := [] }

/-- First named entity with name "A". -/
def entA1 : NamedEntity :=
  { name := "A", whatIsThisEntity := "w1", whyIsThisEntityRelevantToTheArticle := "r1" }

/-- A named entity with name "B". -/
def entB : NamedEntity :=
  { name := "B", whatIsThisEntity := "w2", whyIsThisEntityRelevantToTheArticle := "r2" }

/-- Second named entity with name "A" (different payload). -/
def entA2 : NamedEntity :=
  { name := "A", whatIsThisEntity := "w3", whyIsThisEntityRelevantToTheArticle := "r3" }

/-- A parsed article with duplicated sub-entries in every collection. -/
def artSample : AwfulNewsArticle :=
  { source := none
    dateOfPublication := "2025-05-06"
    timeOfPublication := "06:00:00"
    title := "Sample"
    category := "Politics & Governance"
    summaryOfNewsArticle := "s"
    keyTakeAways := ["k1", "k2", "k1"]
    namedEntities := [entA1, entB, entA2]
    importantDates :=
      [{ dateMentionedInArticle := "d1", descriptionOfWhyDateIsRelevant := "why1" },
       { dateMentionedInArticle := "d2", descriptionOfWhyDateIsRelevant := "why1" },
       { dateMentionedInArticle := "d3", descriptionOfWhyDateIsRelevant := "why2" }]
    importantTimeframes :=
      [{ approximateTimeFrameStart := "a", approximateTimeFrameEnd := "b",
         descriptionOfWhyTimeFrameIsRelevant := "tf1" },
       { approximateTimeFrameStart := "c", approximateTimeFrameEnd := "d",
         descriptionOfWhyTimeFrameIsRelevant := "tf1" }]
    tags := ["t1"]
    content := none }

/-! ## Helper lemmas -/

/-- With an always-failing capability, the retry loop started at attempt `a`
with `a + k = maxRetries` makes `k + 1` further calls and ends with the final
attempt's error. -/
theorem retryAskFrom_always_fails {E R : Type} (inner : Nat → Except E R)
    (maxRetries : Nat) (errs : Nat → E)
    (hfail : ∀ n, inner n = Except.error (errs n)) :
    ∀ (k a : Nat), a + k = maxRetries →
      retryAskFrom inner maxRetries a = (Except.error (errs maxRetries), k + 1) := by
  intro k
  induction k with
  | zero =>
    intro a ha
    have haeq : a = maxRetries := by omega
    subst haeq
    rw [retryAskFrom.eq_def, hfail a]
    simp only
    rw [dif_pos (by omega)]
  | succ k ih =>
    intro a ha
    rw [retryAskFrom.eq_def, hfail a]
    simp only
    rw [dif_neg (by omega)]
    simp [ih (a + 1) (by omega)]

set_option maxRecDepth 20000 in
/-- C4: for a wrapped capability that fails on every call, `RetryAsk::ask`
with maximum `maxRetries` makes exactly `maxRetries + 1` call attempts and
returns the error produced by the final attempt. -/
theorem c4_retry_exhaustion {E R : Type} (inner : Nat → Except E R)
    (maxRetries : Nat) (errs : Nat → E)
    (hfail : ∀ n, inner n = Except.error (errs n)) :
    retryAsk inner maxRetries = (Except.error (errs maxRetries), maxRetries + 1) :=
  retryAskFrom_always_fails inner maxRetries errs hfail maxRetries 0 (by omega)

/-- Witness for C4 at a concrete always-failing capability with the source's
default `maxRetries = 5`: six calls, the last error surfaced. -/
theorem c4_retry_exhaustion_witness :
    retryAsk (fun n => (Except.error (toString n) : Except String String)) 5
      = (Except.error "5", 6) :=
  c4_retry_exhaustion (fun n => (Except.error (toString n) : Except String String))
    5 (fun n => toString n) (fun _ => rfl)

/-- The backoff computation written as a `min`. -/
theorem backoffDelayMs_eq_min (baseMs maxMs attempt : Nat) :
    backoffDelayMs baseMs maxMs attempt = min (baseMs * 2 ^ (attempt - 1)) maxMs := by
  rw [backoffDelayMs]
  split <;> omega

/-- C5: for every attempt `a ≥ 1` the pre-jitter delay is
`min (baseMs * 2 ^ (a - 1)) maxMs`; it is non-decreasing in the attempt
number and never exceeds `maxMs`; with the source defaults
(base 1s, cap 30s) attempts 1..=5 wait 1s, 2s, 4s, 8s, 16s and attempt 6
would wait 30s; every jitter value the generator can add lies in
[0ms, 250ms]. -/
theorem c5_backoff_delay (base maxd a b : Nat) (ha : 1 ≤ a) (hab : a ≤ b) :
    backoffDelayMs base maxd a = min (base * 2 ^ (a - 1)) maxd ∧
    backoffDelayMs base maxd a ≤ backoffDelayMs base maxd b ∧
    backoffDelayMs base maxd a ≤ maxd ∧
    (backoffDelayMs 1000 30000 1 = 1000 ∧ backoffDelayMs 1000 30000 2 = 2000 ∧
     backoffDelayMs 1000 30000 3 = 4000 ∧ backoffDelayMs 1000 30000 4 = 8000 ∧
     backoffDelayMs 1000 30000 5 = 16000 ∧ backoffDelayMs 1000 30000 6 = 30000) ∧
    (∀ j ∈ jitterRangeMs, j ≤ 250) := by
  refine ⟨backoffDelayMs_eq_min base maxd a, ?_, ?_, ?_, ?_⟩
  · rw [backoffDelayMs_eq_min, backoffDelayMs_eq_min]
    have hpow : base * 2 ^ (a - 1) ≤ base * 2 ^ (b - 1) :=
      Nat.mul_le_mul_left base (Nat.pow_le_pow_right (by omega) (by omega))
    exact min_le_min hpow le_rfl
  · rw [backoffDelayMs_eq_min]
    exact min_le_right _ _
  · refine ⟨by decide, by decide, by decide, by decide, by decide, by decide⟩
  · intro j hj
    have : j < 251 := List.mem_range.mp hj
    omega

/-- Witness for C5 at attempts 1 and 2 with the source defaults. -/
theorem c5_backoff_delay_witness :
    backoffDelayMs 1000 30000 1 = min (1000 * 2 ^ (1 - 1)) 30000 ∧
    backoffDelayMs 1000 30000 1 ≤ backoffDelayMs 1000 30000 2 ∧
    backoffDelayMs 1000 30000 1 ≤ 30000 ∧
    (backoffDelayMs 1000 30000 1 = 1000 ∧ backoffDelayMs 1000 30000 2 = 2000 ∧
     backoffDelayMs 1000 30000 3 = 4000 ∧ backoffDelayMs 1000 30000 4 = 8000 ∧
     backoffDelayMs 1000 30000 5 = 16000 ∧ backoffDelayMs 1000 30000 6 = 30000) ∧
    (∀ j ∈ jitterRangeMs, j ≤ 250) :=
  c5_backoff_delay 1000 30000 1 2 (by decide) (by decide)

/-- `uniqueByAux` only drops elements: the survivors keep their relative
order. -/
theorem uniqueByAux_sublist {α κ : Type} [DecidableEq κ] (key : α → κ) :
    ∀ (seen : List κ) (l : List α), (uniqueByAux key seen l).Sublist l := by
  intro seen l
  induction l generalizing seen with
  | nil => simp [uniqueByAux]
  | cons x xs ih =>
    rw [uniqueByAux]
    split
    · exact (ih seen).cons x
    · exact (ih (key x :: seen)).cons₂ x

/-- Membership in `uniqueByAux`: exactly the elements whose key is new and
that are the first in the list to carry their key. -/
theorem mem_uniqueByAux {α κ : Type} [DecidableEq κ] (key : α → κ) (x : α) :
    ∀ (seen : List κ) (l : List α),
      x ∈ uniqueByAux key seen l ↔
        key x ∉ seen ∧ l.find? (fun z => decide (key z = key x)) = some x := by
  intro seen l
  induction l generalizing seen with
  | nil => simp [uniqueByAux]
  | cons y ys ih =>
    by_cases hk : key y = key x
    · rw [List.find?_cons_of_pos _ (by simp [hk])]
      by_cases hy : key y ∈ seen
      · rw [uniqueByAux, if_pos hy, ih]
        constructor
        · rintro ⟨hxs, _⟩; exact absurd (hk ▸ hy) hxs
        · rintro ⟨hxs, _⟩; exact absurd (hk ▸ hy) hxs
      · rw [uniqueByAux, if_neg hy]
        constructor
        · intro hmem
          rcases List.mem_cons.mp hmem with rfl | hmem'
          · exact ⟨hk ▸ hy, rfl⟩
          · rcases (ih (key y :: seen)).mp hmem' with ⟨hns, _⟩
            exact absurd (List.mem_cons_self _ _) (hk ▸ hns)
        · rintro ⟨_, heq⟩
          cases heq
          exact List.mem_cons_self _ _
    · rw [List.find?_cons_of_neg _ (by simp [hk])]
      by_cases hy : key y ∈ seen
      · rw [uniqueByAux, if_pos hy, ih]
      · rw [uniqueByAux, if_neg hy]
        constructor
        · intro hmem
          rcases List.mem_cons.mp hmem with rfl | hmem'
          · exact absurd rfl hk
          · rcases (ih (key y :: seen)).mp hmem' with ⟨hns, hf⟩
            exact ⟨fun hs => hns (List.mem_cons_of_mem _ hs), hf⟩
        · rintro ⟨hns, hf⟩
          refine List.mem_cons_of_mem _ ((ih (key y :: seen)).mpr ⟨?_, hf⟩)
          intro hs
          rcases List.mem_cons.mp hs with heq | hs'
          · exact hk heq.symm
          · exact hns hs'

/-- The keys of `uniqueByAux`'s output are pairwise distinct and avoid the
already-seen set. -/
theorem uniqueByAux_keys_nodup {α κ : Type} [DecidableEq κ] (key : α → κ) :
    ∀ (seen : List κ) (l : List α),
      ((uniqueByAux key seen l).map key).Nodup ∧
        ∀ x ∈ uniqueByAux key seen l, key x ∉ seen := by
  intro seen l
  induction l generalizing seen with
  | nil => simp [uniqueByAux]
  | cons y ys ih =>
    by_cases hy : key y ∈ seen
    · rw [uniqueByAux, if_pos hy]
      exact ih seen
    · rw [uniqueByAux, if_neg hy]
      obtain ⟨hnd, hni⟩ := ih (key y :: seen)
      refine ⟨?_, ?_⟩
      · rw [List.map_cons, List.nodup_cons]
        refine ⟨?_, hnd⟩
        intro hmem
        obtain ⟨x, hx, hkx⟩ := List.mem_map.mp hmem
        exact hni x hx (by rw [hkx]; exact List.mem_cons_self _ _)
      · intro x hx
        rcases List.mem_cons.mp hx with rfl | hx'
        · exact hy
        · exact fun hs => hni x hx' (List.mem_cons_of_mem _ hs)

/-- C7: the dedupe step keeps, for each sub-collection, exactly the first
occurrence per designated key — `name` for named entities, the why-relevant
description for dates and timeframes, the value itself for takeaways — with
the survivors in their original relative order (a sublist) and pairwise
distinct keys; on `[A, B, A]` (by name) the survivors are `[A, B]`. -/
theorem c7_dedup_semantics (art : AwfulNewsArticle) :
    ((dedupeArticle art).namedEntities.Sublist art.namedEntities ∧
     ((dedupeArticle art).namedEntities.map (fun e => e.name)).Nodup ∧
     (∀ x, x ∈ (dedupeArticle art).namedEntities ↔
        art.namedEntities.find? (fun z => decide (z.name = x.name)) = some x)) ∧
    ((dedupeArticle art).importantDates.Sublist art.importantDates ∧
     ((dedupeArticle art).importantDates.map
        (fun e => e.descriptionOfWhyDateIsRelevant)).Nodup ∧
     (∀ x, x ∈ (dedupeArticle art).importantDates ↔
        art.importantDates.find?
          (fun z => decide
            (z.descriptionOfWhyDateIsRelevant = x.descriptionOfWhyDateIsRelevant))
          = some x)) ∧
    ((dedupeArticle art).importantTimeframes.Sublist art.importantTimeframes ∧
     ((dedupeArticle art).importantTimeframes.map
        (fun e => e.descriptionOfWhyTimeFrameIsRelevant)).Nodup ∧
     (∀ x, x ∈ (dedupeArticle art).importantTimeframes ↔
        art.importantTimeframes.find?
          (fun z => decide (z.descriptionOfWhyTimeFrameIsRelevant
            = x.descriptionOfWhyTimeFrameIsRelevant)) = some x)) ∧
    ((dedupeArticle art).keyTakeAways.Sublist art.keyTakeAways ∧
     (dedupeArticle art).keyTakeAways.Nodup ∧
     (∀ x, x ∈ (dedupeArticle art).keyTakeAways ↔
        art.keyTakeAways.find? (fun z => decide (z = x)) = some x)) ∧
    uniqueBy (fun e => e.name) [entA1, entB, entA2] = [entA1, entB] := by
  refine ⟨⟨?_, ?_, ?_⟩, ⟨?_, ?_, ?_⟩, ⟨?_, ?_, ?_⟩, ⟨?_, ?_, ?_⟩, by decide⟩
  · exact uniqueByAux_sublist _ [] _
  · exact (uniqueByAux_keys_nodup (fun e => e.name) [] art.namedEntities).1
  · intro x
    simpa using mem_uniqueByAux (fun e => e.name) x [] art.namedEntities
  · exact uniqueByAux_sublist _ [] _
  · exact (uniqueByAux_keys_nodup (fun e => e.descriptionOfWhyDateIsRelevant) []
      art.importantDates).1
  · intro x
    simpa using mem_uniqueByAux (fun e => e.descriptionOfWhyDateIsRelevant) x []
      art.importantDates
  · exact uniqueByAux_sublist _ [] _
  · exact (uniqueByAux_keys_nodup (fun e => e.descriptionOfWhyTimeFrameIsRelevant) []
      art.importantTimeframes).1
  · intro x
    simpa using mem_uniqueByAux (fun e => e.descriptionOfWhyTimeFrameIsRelevant) x []
      art.importantTimeframes
  · exact uniqueByAux_sublist _ [] _
  · have h := (uniqueByAux_keys_nodup (fun s => s) [] art.keyTakeAways).1
    simpa using h
  · intro x
    simpa using mem_uniqueByAux (fun s => s) x [] art.keyTakeAways

/-- Mapping the per-index lookup over `range` recovers the in-order map. -/
theorem range_map_lookup_bind {α β : Type} (l : List α) (g : α → Option β) :
    (List.range l.length).map (fun i => (l[i]?).bind g) = l.map g := by
  induction l with
  | nil => simp
  | cons x xs ih =>
    have h1 : (x :: xs).length = xs.length + 1 := rfl
    rw [h1, List.range_succ_eq_map, List.map_cons, List.map_map]
    simp only [Function.comp_def, List.getElem?_cons_zero, List.getElem?_cons_succ,
      Option.some_bind]
    rw [List.map_cons]
    exact congrArg (List.cons (g x)) ih

/-- A permutation of `range n` whose t-th element is at most `t` is `range n`
itself: the only completion schedule achievable under concurrency ceiling 1
is the sequential one. -/
theorem perm_le_self_eq_range :
    ∀ (n : Nat) (order : List Nat), order.Perm (List.range n) →
      (∀ t, t < order.length → (order[t]?).getD 0 < t + 1) →
      order = List.range n := by
  intro n
  induction n with
  | zero =>
    intro order hperm _
    have h0 : order.Perm [] := by simpa using hperm
    simp [h0.eq_nil]
  | succ n ih =>
    intro order hperm hle
    have hlen : order.length = n + 1 := by simpa using hperm.length_eq
    have hmem : n ∈ order := hperm.mem_iff.mpr (by simp)
    obtain ⟨s, t, rfl⟩ := List.append_of_mem hmem
    have hlen' : s.length + (t.length + 1) = n + 1 := by
      simpa [List.length_append] using hlen
    have hslen : s.length < (s ++ n :: t).length := by
      simp [List.length_append]
    have hidx : ((s ++ n :: t)[s.length]?).getD 0 = n := by
      rw [List.getElem?_append_right le_rfl]
      simp
    have hsn : s.length = n := by
      have h1 := hle s.length hslen
      rw [hidx] at h1
      omega
    have htnil : t = [] := List.length_eq_zero.mp (by omega)
    subst htnil
    rw [List.range_succ] at hperm ⊢
    have hs : s.Perm (List.range n) := (List.perm_append_right_iff [n]).mp hperm
    have hles : ∀ u, u < s.length → (s[u]?).getD 0 < u + 1 := by
      intro u hu
      have h2 := hle u (by simp [List.length_append]; omega)
      rw [List.getElem?_append, if_pos (by omega)] at h2
      exact h2
    rw [ih s hs hles]

/-- C2 counterexample: the source collects `buffer_unordered` output in
completion order without re-collating by input index, so with two inputs,
ceiling 2 and the second task finishing first, slot 0 holds input 1's
result. This refutes "slot i corresponds to input article i for any
concurrency ceiling in 1..=N". -/
theorem c2_counterexample :
    ¬ (∀ (inputs : List Nat) (enrich : Nat → Option Nat) (k : Nat)
        (order : List Nat),
        1 ≤ k → k ≤ inputs.length → order.Perm (List.range inputs.length) →
        admissibleOrder k order →
        processBatch inputs enrich order = inputs.map enrich) := by
  intro h
  have hc := h [10, 20] some 2 [1, 0] (by decide) (by decide) (by decide)
    (by decide)
  exact absurd hc (by decide)

/-- C2 amended: for every completion schedule (a permutation of the input
indices) the collected sequence has exactly `N` slots and carries the same
multiset of per-input results — same successes regardless of ceiling — but
the slots are in completion order; the slot-i-is-input-i correspondence holds
whenever the schedule is admissible at concurrency ceiling 1 (where only the
sequential order is achievable), not for every ceiling. -/
theorem c2_scheduler_collation {α β : Type} (inputs : List α)
    (enrich : α → Option β) (order : List Nat)
    (hperm : order.Perm (List.range inputs.length)) :
    (processBatch inputs enrich order).length = inputs.length ∧
    (processBatch inputs enrich order).Perm (inputs.map enrich) ∧
    (admissibleOrder 1 order → processBatch inputs enrich order = inputs.map enrich) := by
  refine ⟨?_, ?_, ?_⟩
  · rw [processBatch, List.length_map, hperm.length_eq, List.length_range]
  · have hmap := hperm.map (fun i => (inputs[i]?).bind enrich)
    rw [range_map_lookup_bind] at hmap
    exact hmap
  · intro hadm
    have : order = List.range inputs.length :=
      perm_le_self_eq_range inputs.length order hperm (by
        intro t ht
        have := hadm t ht
        omega)
    rw [processBatch, this, range_map_lookup_bind]

/-- Witness for C2's amended statement at three concrete inputs, one failing,
under the out-of-order schedule [2, 0, 1]. -/
theorem c2_scheduler_collation_witness :
    (processBatch [1, 2, 3] (fun n => if n = 2 then none else some n) [2, 0, 1]).length = 3 ∧
    (processBatch [1, 2, 3] (fun n => if n = 2 then none else some n) [2, 0, 1]).Perm
      ([1, 2, 3].map (fun n => if n = 2 then none else some n)) ∧
    (admissibleOrder 1 [2, 0, 1] →
      processBatch [1, 2, 3] (fun n => if n = 2 then none else some n) [2, 0, 1]
        = [1, 2, 3].map (fun n => if n = 2 then none else some n)) := by
  have h := c2_scheduler_collation [1, 2, 3] (fun n => if n = 2 then none else some n)
    [2, 0, 1] (by decide)
  exact ⟨h.1, h.2.1, h.2.2⟩

/-- C3: for every input sequence and every completion schedule, the scheduler
returns exactly one slot per input — the result list has length `N` and, for
every possible slot value (including `none` for a failed article), exactly as
many slots carry it as inputs produce it: failures become `none` slots and
never remove or change any sibling's slot. -/
theorem c3_failure_isolation {α β : Type} [DecidableEq β] (inputs : List α)
    (enrich : α → Option β) (order : List Nat)
    (hperm : order.Perm (List.range inputs.length)) :
    (processBatch inputs enrich order).length = inputs.length ∧
    ∀ b : Option β,
      (processBatch inputs enrich order).countP (fun x => decide (x = b))
        = (inputs.map enrich).countP (fun x => decide (x = b)) := by
  have h := c2_scheduler_collation inputs enrich order hperm
  exact ⟨h.1, fun b => h.2.1.countP_eq (fun x => decide (x = b))⟩

/-- Witness for C3: three inputs, the middle one failing, schedule [1, 2, 0]:
three slots, exactly one `none` slot and one slot per surviving sibling. -/
theorem c3_failure_isolation_witness :
    (processBatch [1, 2, 3] (fun n => if n = 2 then none else some n) [1, 2, 0]).length = 3 ∧
    (processBatch [1, 2, 3] (fun n => if n = 2 then none else some n) [1, 2, 0]).countP
        (fun x => decide (x = (none : Option Nat)))
      = ([1, 2, 3].map (fun n => if n = 2 then none else some n)).countP
        (fun x => decide (x = (none : Option Nat))) ∧
    (processBatch [1, 2, 3] (fun n => if n = 2 then none else some n) [1, 2, 0]).countP
        (fun x => decide (x = some 3))
      = ([1, 2, 3].map (fun n => if n = 2 then none else some n)).countP
        (fun x => decide (x = some 3)) := by
  have h := c3_failure_isolation [1, 2, 3] (fun n => if n = 2 then none else some n)
    [1, 2, 0] (by decide)
  exact ⟨h.1, h.2 none, h.2 (some 3)⟩

/-- C6: a parse failure triggers a second full call-and-parse cycle if and
only if it is classified as truncation (JSON EOF, `looks_truncated`); at most
one re-ask is ever issued per article (call count is at most 2), and when the
re-ask call fails or the second response parses as truncated or malformed the
article is dropped (`none`) with no third attempt. -/
theorem c6_truncation_single_shot (raw : NewsArticle)
    (call : Nat → Except String String)
    (parse : String → ParseOutcome AwfulNewsArticle) :
    (process_article raw call parse).2 ≤ 2 ∧
    ((process_article raw call parse).2 = 2 ↔
      ∃ s, call 0 = Except.ok s ∧ parse s = ParseOutcome.truncated) ∧
    (∀ s, call 0 = Except.ok s → parse s = ParseOutcome.truncated →
      (∀ e, call 1 = Except.error e → (process_article raw call parse).1 = none) ∧
      (∀ s2, call 1 = Except.ok s2 →
        (parse s2 = ParseOutcome.truncated ∨ parse s2 = ParseOutcome.malformed) →
        (process_article raw call parse).1 = none)) := by
  cases h0 : call 0 with
  | error e0 =>
    refine ⟨by simp [process_article, h0], ?_, ?_⟩
    · exact iff_of_false (by simp [process_article, h0])
        (by rintro ⟨s, hs, -⟩; cases hs)
    · intro s hs
      cases hs
  | ok s0 =>
    cases hp : parse s0 with
    | ok art =>
      refine ⟨by simp [process_article, h0, hp], ?_, ?_⟩
      · refine iff_of_false (by simp [process_article, h0, hp]) ?_
        rintro ⟨s, hs, ht⟩
        cases hs
        rw [hp] at ht
        cases ht
      · intro s hs ht
        cases hs
        rw [hp] at ht
        cases ht
    | malformed =>
      refine ⟨by simp [process_article, h0, hp], ?_, ?_⟩
      · refine iff_of_false (by simp [process_article, h0, hp]) ?_
        rintro ⟨s, hs, ht⟩
        cases hs
        rw [hp] at ht
        cases ht
      · intro s hs ht
        cases hs
        rw [hp] at ht
        cases ht
    | truncated =>
      cases h1 : call 1 with
      | error e1 =>
        refine ⟨by simp [process_article, h0, hp, h1], ?_, ?_⟩
        · exact iff_of_true (by simp [process_article, h0, hp, h1]) ⟨s0, rfl, hp⟩
        · intro s hs ht
          refine ⟨?_, ?_⟩
          · intro e he
            simp [process_article, h0, hp, h1]
          · intro s2 hs2 hbad
            cases hs2
      | ok s2 =>
        cases hp2 : parse s2 with
        | ok art2 =>
          refine ⟨by simp [process_article, h0, hp, h1, hp2], ?_, ?_⟩
          · exact iff_of_true (by simp [process_article, h0, hp, h1, hp2]) ⟨s0, rfl, hp⟩
          · intro s hs ht
            refine ⟨?_, ?_⟩
            · intro e he
              cases he
            · intro s3 hs3 hbad
              cases hs3
              rcases hbad with hb | hb <;> (rw [hp2] at hb; cases hb)
        | truncated =>
          refine ⟨by simp [process_article, h0, hp, h1, hp2], ?_, ?_⟩
          · exact iff_of_true (by simp [process_article, h0, hp, h1, hp2]) ⟨s0, rfl, hp⟩
          · intro s hs ht
            refine ⟨?_, ?_⟩
            · intro e he
              cases he
            · intro s3 hs3 hbad
              simp [process_article, h0, hp, h1, hp2]
        | malformed =>
          refine ⟨by simp [process_article, h0, hp, h1, hp2], ?_, ?_⟩
          · exact iff_of_true (by simp [process_article, h0, hp, h1, hp2]) ⟨s0, rfl, hp⟩
          · intro s hs ht
            refine ⟨?_, ?_⟩
            · intro e he
              cases he
            · intro s3 hs3 hbad
              simp [process_article, h0, hp, h1, hp2]

/-- C1 counterexample: the date-TOC merge is append-only (no existence
check), so merging the same (2025-05-06, morning) edition-link twice into an
initially absent document appends the edition link a second time; and for
daily_news.md the second merge of the same edition drops the trailing
newline the first merge leaves (the `lines.join("\n")` rewrite), so the
text is not byte-identical either. -/
theorem c1_counterexample :
    update_date_toc_file
        (some (update_date_toc_file none fpMorning "2025-05-06_morning.md"))
        fpMorning "2025-05-06_morning.md"
      ≠ update_date_toc_file none fpMorning "2025-05-06_morning.md" ∧
    update_daily_news_index
        (some (update_daily_news_index none fpMorning "2025-05-06_morning.md"))
        fpMorning "2025-05-06_morning.md"
      ≠ update_daily_news_index none fpMorning "2025-05-06_morning.md" := by
  exact ⟨by decide, by decide⟩

set_option maxRecDepth 20000 in
/-- C1 amended: merging the same (editionDate, timeSlot) edition-link twice
is idempotent for SUMMARY.md — byte-identical to merging once, also when the
document already contains the entry — while for daily_news.md the re-merge
leaves the line sequence unchanged (the entry is inserted only once) and the
output is byte-stable from the second merge on, differing from the first
merge only by the dropped trailing newline; the date-TOC merge is not
idempotent at all (see the counterexample). -/
theorem c1_amended_idempotence :
    update_summary_md
        (some (update_summary_md none fpMorning "2025-05-06_morning.md"))
        fpMorning "2025-05-06_morning.md"
      = update_summary_md none fpMorning "2025-05-06_morning.md" ∧
    rustLines (update_daily_news_index
        (some (update_daily_news_index none fpMorning "2025-05-06_morning.md"))
        fpMorning "2025-05-06_morning.md")
      = rustLines (update_daily_news_index none fpMorning "2025-05-06_morning.md") ∧
    update_daily_news_index
        (some (update_daily_news_index
          (some (update_daily_news_index none fpMorning "2025-05-06_morning.md"))
          fpMorning "2025-05-06_morning.md"))
        fpMorning "2025-05-06_morning.md"
      = update_daily_news_index
          (some (update_daily_news_index none fpMorning "2025-05-06_morning.md"))
          fpMorning "2025-05-06_morning.md" := by
  exact ⟨by decide, by decide, by decide⟩

set_option maxRecDepth 20000 in
/-- C8: starting from an absent document, merging the morning edition and
then the evening edition of 2025-05-06 into SUMMARY.md and into
daily_news.md produces exactly one date heading line, immediately followed
by the morning entry and then the evening entry — not two date headings. -/
theorem c8_index_date_grouping :
    rustLines (update_summary_md
        (some (update_summary_md none fpMorning "2025-05-06_morning.md"))
        fpEvening "2025-05-06_evening.md")
      = ["# Summary", "", "[Home](./home.md)", "- [PGP](./pgp.md)",
         "- [Contact](./contact.md)", "- [Daily News](./daily_news.md)",
         "    - [2025-05-06](./2025-05-06.md)",
         "        - [Morning](./2025-05-06_morning.md)",
         "        - [Evening](./2025-05-06_evening.md)"] ∧
    (rustLines (update_summary_md
        (some (update_summary_md none fpMorning "2025-05-06_morning.md"))
        fpEvening "2025-05-06_evening.md")).countP
        (fun l => rustTrim l == rustTrim (summary_date_heading fpMorning)) = 1 ∧
    rustLines (update_daily_news_index
        (some (update_daily_news_index none fpMorning "2025-05-06_morning.md"))
        fpEvening "2025-05-06_evening.md")
      = ["# Awful News Index", "", "- [**2025-05-06**](./2025-05-06.md)",
         "    - [Morning](./2025-05-06_morning.md)",
         "    - [Evening](./2025-05-06_evening.md)"] ∧
    (rustLines (update_daily_news_index
        (some (update_daily_news_index none fpMorning "2025-05-06_morning.md"))
        fpEvening "2025-05-06_evening.md")).countP
        (fun l => rustTrim l == rustTrim (daily_date_heading fpMorning)) = 1 := by
  exact ⟨by decide, by decide, by decide, by decide⟩

/-- C9: when the existing SUMMARY.md contains neither a line trim-equal to
the date heading nor any line containing "- [Daily News]", `update_summary_md`
writes back the document with its line sequence unchanged: the output is
exactly the original lines re-joined, with no heading or entry inserted. -/
theorem c9_summary_without_anchor_unchanged (existing : String) (fp : FrontPage)
    (filename : String)
    (hdate : (rustLines existing).findIdx?
      (fun l => rustTrim l == rustTrim (summary_date_heading fp)) = none)
    (hanchor : (rustLines existing).findIdx?
      (fun l => containsSub l "- [Daily News]") = none) :
    update_summary_md (some existing) fp filename = joinLines (rustLines existing) := by
  rw [update_summary_md]
  simp only [update_summary_lines, hdate, hanchor]

/-- Witness for C9 at a concrete two-line document without the anchor. -/
theorem c9_summary_without_anchor_unchanged_witness :
    update_summary_md (some "hello\nworld") fpMorning "2025-05-06_morning.md"
      = joinLines (rustLines "hello\nworld") :=
  c9_summary_without_anchor_unchanged "hello\nworld" fpMorning "2025-05-06_morning.md"
    (by decide) (by decide)

/-- `takeBytes` succeeds exactly on character boundaries. -/
theorem takeBytes_isSome_iff (n : Nat) (l : List Char) :
    (takeBytes n l).isSome = isCharBoundary n l := by
  induction l generalizing n with
  | nil =>
    cases n with
    | zero => rfl
    | succ m => rfl
  | cons c cs ih =>
    cases n with
    | zero => rfl
    | succ m =>
      rw [takeBytes, isCharBoundary]
      split
      · rw [← ih (m + 1 - c.utf8Size)]
        cases takeBytes (m + 1 - c.utf8Size) cs <;> rfl
      · rfl

/-- A successful `takeBytes n` returns a prefix of exactly `n` bytes. -/
theorem takeBytes_spec (n : Nat) (l : List Char) (pre : List Char)
    (h : takeBytes n l = some pre) : utf8Len pre = n ∧ pre <+: l := by
  induction l generalizing n pre with
  | nil =>
    cases n with
    | zero =>
      rw [takeBytes] at h
      cases h
      exact ⟨rfl, List.prefix_refl _⟩
    | succ m =>
      rw [takeBytes] at h
      cases h
  | cons c cs ih =>
    cases n with
    | zero =>
      rw [takeBytes] at h
      cases h
      exact ⟨rfl, List.nil_prefix⟩
    | succ m =>
      rw [takeBytes] at h
      by_cases hsz : c.utf8Size ≤ m + 1
      · rw [if_pos hsz] at h
        cases hrec : takeBytes (m + 1 - c.utf8Size) cs with
        | none => rw [hrec] at h; cases h
        | some r =>
          rw [hrec] at h
          cases h
          obtain ⟨hlen, hpre⟩ := ih _ _ hrec
          constructor
          · rw [utf8Len] at hlen ⊢
            simp only [List.map_cons, List.sum_cons]
            omega
          · exact List.cons_prefix_cons.mpr ⟨rfl, hpre⟩
      · rw [if_neg hsz] at h
        cases h


/-- C10 counterexample: `truncate_for_log` is not total — for the two-byte
character 'é', slicing "éa" at byte index 1 is not a character boundary, so
the source's `&s[..max]` panics (modelled as `none`). -/
theorem c10_counterexample :
    truncate_for_log "éa" 1 = none ∧
    ¬ (∀ (s : String) (max : Nat), (truncate_for_log s max).isSome = true) := by
  refine ⟨by decide, ?_⟩
  intro h
  exact absurd (h "éa" 1) (by decide)

/-- C10 amended: `truncate_for_log s max` returns without panicking iff
`s` has at most `max` bytes or byte index `max` is a character boundary of
`s`; it returns `s` itself in the first case and otherwise the first `max`
bytes of `s` followed by the `"…(+N bytes)"` marker. -/
theorem c10_total_on_boundaries (s : String) (max : Nat) :
    (utf8Len s.toList ≤ max → truncate_for_log s max = some s) ∧
    (max < utf8Len s.toList → isCharBoundary max s.toList = true →
      ∃ pre, takeBytes max s.toList = some pre ∧ utf8Len pre = max ∧
        pre <+: s.toList ∧
        truncate_for_log s max
          = some (String.mk pre ++ "…(+" ++ toString (utf8Len s.toList - max)
              ++ " bytes)")) ∧
    ((truncate_for_log s max).isSome = true ↔
      (utf8Len s.toList ≤ max ∨ isCharBoundary max s.toList = true)) := by
  refine ⟨?_, ?_, ?_⟩
  · intro h
    rw [truncate_for_log, if_pos h]
  · intro hlt hb
    have hsome : (takeBytes max s.toList).isSome = true := by
      rw [takeBytes_isSome_iff]; exact hb
    obtain ⟨pre, hpre⟩ := Option.isSome_iff_exists.mp hsome
    obtain ⟨hlen, hprefix⟩ := takeBytes_spec max s.toList pre hpre
    refine ⟨pre, hpre, hlen, hprefix, ?_⟩
    rw [truncate_for_log, if_neg (by omega), hpre]
    rfl
  · by_cases h : utf8Len s.toList ≤ max
    · rw [truncate_for_log, if_pos h]
      simp only [Option.isSome_some, true_iff]
      exact Or.inl h
    · rw [truncate_for_log, if_neg h, ← takeBytes_isSome_iff]
      cases htb : takeBytes max s.toList with
      | none =>
        simp [h]
        exact Nat.lt_of_not_le h
      | some r => simp [h]
